import Mathlib

/-!
Shallow embedding of the two locally authored numeric transforms of the
landsat example notebook: the intensity normalizer `normalize_data` and the
four-channel band compositor `combine_bands`.

Modelling choices:
* a cell of a 2-D numpy array is `Option ℝ`: `none` models IEEE NaN, `some v`
  a finite sample; the NaN-propagation of float arithmetic is captured by
  `normalizeCell` mapping `none` to `none`, exactly as every arithmetic
  operation of the source maps NaN to NaN;
* a 2-D array is a list of rows (`Grid`); numpy guarantees rectangularity,
  which theorems assume through the `rect` predicate where they need it;
* `normalize_data` is embedded imperatively, as in the source: a state
  carrying the read-only input `agg` and the output buffer `out`
  (initialised to `np.zeros_like(agg)`), folded over the row-major index
  sequence of the double `for` loop, each step writing one cell of `out`;
* `astype(np.uint8)` on the nonnegative float results truncates toward zero
  and keeps the low 8 bits, embedded by `toU8` (NaN casts are platform
  dependent in numpy; the model picks 0, and no theorem depends on it);
* `np.dstack([r, g, b, a]).view(np.uint32)` reinterprets the four uint8
  planes as one little-endian uint32 per pixel, embedded by `packRGBA`.
-/

/-- A cell value of a float array: `none` models IEEE NaN. -/
abbrev Cell := Option ℝ

/-- A 2-D array as a list of rows. -/
abbrev Grid (α : Type) := List (List α)

/-- Read a cell, with default `d` out of bounds (the source never reads out of
bounds; the default only keeps the embedding total). -/
def get2 (g : Grid α) (d : α) (x y : ℕ) : α := (g.getD x []).getD y d

/-- Write a cell; a no-op out of bounds, like `List.set`. -/
def set2 (g : Grid α) (x y : ℕ) (v : α) : Grid α :=
  g.set x ((g.getD x []).set y v)

/-- The shape of a grid: the list of its row lengths. -/
def shape (g : Grid α) : List ℕ := g.map List.length

/-- Second component of `agg.shape` for a rectangular array: the length of the
first row. -/
def rowLen (g : Grid α) : ℕ := (shape g).headD 0

/-- Rectangularity: every row has the common length, as numpy guarantees. -/
def rect (g : Grid α) : Prop := ∀ n ∈ shape g, n = rowLen g

/-- Embedding of `np.zeros_like(agg)` for a float array. -/
def zerosLike (g : Grid Cell) : Grid Cell :=
  g.map (List.map fun _ => (some 0 : Cell))

/-- The per-cell arithmetic of `normalize_data` on a non-NaN sample, with the
source's locals: `min_val = 0`, `max_val = 2**16 - 1`,
`range_val = max_val - min_val`, `c = 40`, `th = .125`,
`norm = (val - min_val) / range_val`, then
`norm = 1 / (1 + np.exp(c * (th - norm)))` and finally `norm * 255.0`. -/
noncomputable def normalizeVal (val : ℝ) : ℝ :=
  let min_val : ℝ := 0
  let max_val : ℝ := 2 ^ 16 - 1
  let range_val : ℝ := max_val - min_val
  let c : ℝ := 40
  let th : ℝ := 0.125
  let norm : ℝ := (val - min_val) / range_val
  (1 / (1 + Real.exp (c * (th - norm)))) * 255.0

/-- The per-cell arithmetic including NaN propagation: every float operation
of the source maps NaN to NaN, so a NaN cell yields a NaN cell. -/
noncomputable def normalizeCell : Cell → Cell
  | none => none
  | some v => some (normalizeVal v)

/-- The loop state of `normalize_data`: the input array `agg` (only read) and
the output buffer `out` (only written). -/
structure NDState where
  agg : Grid Cell
  out : Grid Cell

/-- One iteration of the inner loop body:
`out[x, y] = 1 / (1 + np.exp(c * (th - (agg[x, y] - min_val) / range_val))) * 255.0`. -/
noncomputable def ndStep (s : NDState) (xy : ℕ × ℕ) : NDState :=
  { agg := s.agg
    out := set2 s.out xy.1 xy.2 (normalizeCell (get2 s.agg none xy.1 xy.2)) }

/-- The row-major index sequence of the double loop
`for x in range(col): for y in range(rows)` with `col, rows = agg.shape`. -/
def indices (g : Grid α) : List (ℕ × ℕ) :=
  (List.range g.length).flatMap fun x => (List.range (rowLen g)).map fun y => (x, y)

/-- Running the loop of `normalize_data` from an arbitrary initial output
buffer (the source initialises it with `np.zeros_like(agg)`). -/
noncomputable def normalize_data_run (agg out : Grid Cell) : NDState :=
  List.foldl ndStep ⟨agg, out⟩ (indices agg)

/-- `normalize_data` of the source: allocate `out = np.zeros_like(agg)`, run
the double loop, return `out`. -/
noncomputable def normalize_data (agg : Grid Cell) : Grid Cell :=
  (normalize_data_run agg (zerosLike agg)).out

/-- `astype(np.uint8)` on one float cell: truncate toward zero, keep the low
8 bits. All values cast in the source are in `[0, 255)`, where this agrees
with the C cast; numpy's NaN cast is platform dependent and modelled as 0
(no theorem depends on that choice). -/
noncomputable def toU8 : Cell → ℕ
  | none => 0
  | some v => (Int.toNat ⌊v⌋) % 256

/-- The spec's Normalizer component: `normalize_data` followed by the
`astype(np.uint8)` applied to its result inside `combine_bands`. -/
noncomputable def normalizer8 (g : Grid Cell) : Grid ℕ :=
  (normalize_data g).map (List.map toU8)

/-- The alpha computation of `combine_bands`:
`np.where(np.logical_or(np.isnan(r), r <= nodata), 0, 255)`. -/
noncomputable def alphaVal (nd : ℝ) : Cell → ℕ
  | none => 0
  | some v => if v ≤ nd then 0 else 255

/-- The notebook's global no-data sentinel: `nodata = 1`. -/
def nodata : ℝ := 1

/-- One pixel of `np.dstack([r, g, b, a]).view(np.uint32)`: the four uint8
planes become one uint32 with red in the least significant byte and alpha in
the most significant byte (little-endian host). -/
def packRGBA (r g b a : ℕ) : ℕ := r + 256 * g + 256 ^ 2 * b + 256 ^ 3 * a

/-- Pointwise combination of four equal-length lists. -/
def zipWith4 (f : α → β → γ → δ → ε) : List α → List β → List γ → List δ → List ε
  | a :: as, b :: bs, c :: cs, d :: ds => f a b c d :: zipWith4 f as bs cs ds
  | _, _, _, _ => []

/-- `combine_bands` of the source, with the global sentinel exposed as the
parameter `nd` (the notebook binds `nodata = 1`): compute the alpha mask from
the raw red band, normalize and truncate each band to uint8, and pack the
four planes into one uint32 grid of the red band's shape. -/
noncomputable def combine_bands (nd : ℝ) (r g b : Grid Cell) : Grid ℕ :=
  let a : Grid ℕ := r.map (List.map (alphaVal nd))
  let r8 : Grid ℕ := normalizer8 r
  let g8 : Grid ℕ := normalizer8 g
  let b8 : Grid ℕ := normalizer8 b
  zipWith4 (fun rr gr br ar => zipWith4 packRGBA rr gr br ar) r8 g8 b8 a

/-! ### List-level helper lemmas -/

theorem getD_set (l : List α) (i j : ℕ) (v d : α) :
    (l.set i v).getD j d = if j = i ∧ i < l.length then v else l.getD j d := by
  induction l generalizing i j with
  | nil => simp
  | cons a t ih =>
    cases i with
    | zero =>
      cases j with
      | zero => simp
      | succ j => simp
    | succ i =>
      cases j with
      | zero => simp
      | succ j =>
        simpa [Nat.succ_lt_succ_iff] using ih i j

theorem set_getD_self (l : List α) (i : ℕ) (d : α) : l.set i (l.getD i d) = l := by
  induction l generalizing i with
  | nil => simp
  | cons a t ih =>
    cases i with
    | zero => simp
    | succ i => rw [List.getD_cons_succ, List.set_cons_succ, ih]

theorem getD_map (f : α → β) (l : List α) (i : ℕ) (d : α) (d' : β) (h : i < l.length) :
    (l.map f).getD i d' = f (l.getD i d) := by
  induction l generalizing i with
  | nil => simp at h
  | cons a t ih =>
    cases i with
    | zero => simp
    | succ i => simpa using ih i (by simpa using h)

theorem getD_mem {l : List α} {i : ℕ} (d : α) (h : i < l.length) : l.getD i d ∈ l := by
  induction l generalizing i with
  | nil => simp at h
  | cons a t ih =>
    cases i with
    | zero => simp
    | succ i => exact List.mem_cons_of_mem a (ih (by simpa using h))

theorem length_shape (g : Grid α) : (shape g).length = g.length := by
  simp [shape]

theorem shape_getD (g : Grid α) (x : ℕ) : (shape g).getD x 0 = (g.getD x []).length := by
  induction g generalizing x with
  | nil => simp [shape]
  | cons r t ih =>
    cases x with
    | zero => simp [shape]
    | succ x => simpa [shape] using ih x

theorem length_eq_of_shape_eq {g : Grid α} {h : Grid β} (hs : shape g = shape h) :
    g.length = h.length := by
  rw [← length_shape g, ← length_shape h, hs]

theorem row_length_eq_of_shape_eq {g : Grid α} {h : Grid β} (hs : shape g = shape h) (x : ℕ) :
    (g.getD x []).length = (h.getD x []).length := by
  rw [← shape_getD, ← shape_getD, hs]

theorem rowLen_eq_of_shape_eq {g : Grid α} {h : Grid β} (hs : shape g = shape h) :
    rowLen g = rowLen h := by
  rw [rowLen, rowLen, hs]

theorem rect_rowlen {g : Grid α} (hr : rect g) {x : ℕ} (hx : x < g.length) :
    (g.getD x []).length = rowLen g := by
  have hm : (g.getD x []).length ∈ shape g := by
    rw [← shape_getD]
    exact getD_mem 0 (by simpa [length_shape] using hx)
  exact hr _ hm

theorem rect_of_shape_eq {g : Grid α} {h : Grid β} (hs : shape g = shape h) (hr : rect h) :
    rect g := by
  intro n hn
  rw [hs] at hn
  rw [rowLen_eq_of_shape_eq hs]
  exact hr n hn

theorem shape_gridMap (f : α → β) (g : Grid α) : shape (g.map (List.map f)) = shape g := by
  simp [shape, List.map_map, Function.comp_def]

theorem shape_zerosLike (g : Grid Cell) : shape (zerosLike g) = shape g :=
  shape_gridMap _ g

theorem shape_set2 (g : Grid α) (x y : ℕ) (v : α) : shape (set2 g x y v) = shape g := by
  induction g generalizing x with
  | nil => simp [set2]
  | cons r t ih =>
    cases x with
    | zero => simp [set2, shape]
    | succ x =>
      have := ih x
      simpa [set2, shape] using this

theorem get2_set2 (o : Grid α) (d v : α) (a b x y : ℕ) :
    get2 (set2 o a b v) d x y =
      if x = a ∧ y = b ∧ a < o.length ∧ b < (o.getD a []).length then v
      else get2 o d x y := by
  unfold get2 set2
  rw [getD_set]
  by_cases hx : x = a ∧ a < o.length
  · obtain ⟨rfl, ha⟩ := hx
    rw [if_pos ⟨rfl, ha⟩, getD_set]
    by_cases hy : y = b ∧ b < (o.getD x []).length
    · obtain ⟨rfl, hb⟩ := hy
      rw [if_pos ⟨rfl, hb⟩, if_pos ⟨rfl, rfl, ha, hb⟩]
    · rw [if_neg hy, if_neg fun hcon => hy ⟨hcon.2.1, hcon.2.2.2⟩]
  · rw [if_neg hx, if_neg fun hcon => hx ⟨hcon.1, hcon.2.2.1⟩]

theorem set2_rowlen (o : Grid α) (a b x : ℕ) (v : α) :
    ((set2 o a b v).getD x []).length = (o.getD x []).length := by
  unfold set2
  rw [getD_set]
  by_cases hx : x = a ∧ a < o.length
  · obtain ⟨rfl, ha⟩ := hx
    rw [if_pos ⟨rfl, ha⟩, List.length_set]
  · rw [if_neg hx]

theorem mem_indices (g : Grid α) (x y : ℕ) :
    (x, y) ∈ indices g ↔ x < g.length ∧ y < rowLen g := by
  simp [indices, List.mem_flatMap, List.mem_range, List.mem_map, Prod.ext_iff]

/-! ### Loop characterisation of normalize_data -/

theorem foldl_ndStep_agg (l : List (ℕ × ℕ)) (s : NDState) :
    (List.foldl ndStep s l).agg = s.agg := by
  induction l generalizing s with
  | nil => rfl
  | cons p t ih => simpa [List.foldl_cons] using ih (ndStep s p)

theorem foldl_ndStep_shape (l : List (ℕ × ℕ)) (s : NDState) :
    shape (List.foldl ndStep s l).out = shape s.out := by
  induction l generalizing s with
  | nil => rfl
  | cons p t ih =>
    rw [List.foldl_cons, ih (ndStep s p)]
    exact shape_set2 s.out p.1 p.2 _

theorem foldl_ndStep_cell (l : List (ℕ × ℕ)) (s : NDState) (x y : ℕ) :
    get2 (List.foldl ndStep s l).out none x y =
      if (x, y) ∈ l ∧ x < s.out.length ∧ y < (s.out.getD x []).length
      then normalizeCell (get2 s.agg none x y)
      else get2 s.out none x y := by
  induction l generalizing s with
  | nil => simp
  | cons p t ih =>
    obtain ⟨a, b⟩ := p
    rw [List.foldl_cons, ih (ndStep s (a, b))]
    have hagg : (ndStep s (a, b)).agg = s.agg := rfl
    have hout : (ndStep s (a, b)).out
        = set2 s.out a b (normalizeCell (get2 s.agg none a b)) := rfl
    have hlen : (ndStep s (a, b)).out.length = s.out.length := by
      rw [hout]; unfold set2; exact List.length_set ..
    have hrow : ((ndStep s (a, b)).out.getD x []).length = (s.out.getD x []).length := by
      rw [hout]; exact set2_rowlen ..
    rw [hagg, hlen, hrow, hout, get2_set2]
    by_cases h1 : (x, y) ∈ t ∧ x < s.out.length ∧ y < (s.out.getD x []).length
    · rw [if_pos h1, if_pos ⟨List.mem_cons_of_mem _ h1.1, h1.2⟩]
    · rw [if_neg h1]
      by_cases h2 : x = a ∧ y = b ∧ a < s.out.length ∧ b < (s.out.getD a []).length
      · obtain ⟨rfl, rfl, ha, hb⟩ := h2
        rw [if_pos ⟨rfl, rfl, ha, hb⟩, if_pos ⟨List.mem_cons_self .., ha, hb⟩]
      · rw [if_neg h2, if_neg]
        rintro ⟨hmem, hx, hy⟩
        rcases List.mem_cons.mp hmem with heq | hmemt
        · obtain ⟨rfl, rfl⟩ := Prod.mk.injEq .. ▸ heq
          exact h2 ⟨rfl, rfl, hx, hy⟩
        · exact h1 ⟨hmemt, hx, hy⟩

theorem run_cell (g o : Grid Cell) (hr : rect g) (ho : shape o = shape g)
    (x y : ℕ) (hx : x < g.length) (hy : y < rowLen g) :
    get2 (normalize_data_run g o).out none x y = normalizeCell (get2 g none x y) := by
  unfold normalize_data_run
  rw [foldl_ndStep_cell]
  rw [if_pos]
  refine ⟨(mem_indices g x y).mpr ⟨hx, hy⟩, ?_, ?_⟩
  · rw [length_eq_of_shape_eq ho]; exact hx
  · rw [row_length_eq_of_shape_eq ho, rect_rowlen hr hx]; exact hy

theorem shape_normalize_data (g : Grid Cell) : shape (normalize_data g) = shape g := by
  unfold normalize_data normalize_data_run
  rw [foldl_ndStep_shape]
  exact shape_zerosLike g

theorem normalize_data_cell (g : Grid Cell) (hr : rect g)
    (x y : ℕ) (hx : x < g.length) (hy : y < rowLen g) :
    get2 (normalize_data g) none x y = normalizeCell (get2 g none x y) :=
  run_cell g (zerosLike g) hr (shape_zerosLike g) x y hx hy

theorem normalizer8_cell (g : Grid Cell) (hr : rect g)
    (x y : ℕ) (hx : x < g.length) (hy : y < rowLen g) :
    get2 (normalizer8 g) 0 x y = toU8 (normalizeCell (get2 g none x y)) := by
  have hshape : shape (normalize_data g) = shape g := shape_normalize_data g
  have hlen : x < (normalize_data g).length := by
    rw [length_eq_of_shape_eq hshape]; exact hx
  have hrow : y < ((normalize_data g).getD x []).length := by
    rw [row_length_eq_of_shape_eq hshape, rect_rowlen hr hx]; exact hy
  unfold normalizer8 get2
  rw [getD_map (List.map toU8) (normalize_data g) x [] [] hlen,
    getD_map toU8 _ y none 0 hrow]
  exact congrArg toU8 (normalize_data_cell g hr x y hx hy)

theorem shape_normalizer8 (g : Grid Cell) : shape (normalizer8 g) = shape g := by
  unfold normalizer8
  rw [shape_gridMap, shape_normalize_data]

/-! ### zipWith4 and the per-pixel form of combine_bands -/

theorem length_zipWith4 (f : α → β → γ → δ → ε)
    (as : List α) (bs : List β) (cs : List γ) (ds : List δ)
    (hb : bs.length = as.length) (hc : cs.length = as.length) (hd : ds.length = as.length) :
    (zipWith4 f as bs cs ds).length = as.length := by
  induction as generalizing bs cs ds with
  | nil =>
    rw [List.length_eq_zero.mp hb, List.length_eq_zero.mp hc, List.length_eq_zero.mp hd]
    rfl
  | cons a as ih =>
    cases bs with
    | nil => simp at hb
    | cons b bs =>
      cases cs with
      | nil => simp at hc
      | cons c cs =>
        cases ds with
        | nil => simp at hd
        | cons d ds =>
          simp only [zipWith4, List.length_cons]
          rw [ih bs cs ds (by simpa using hb) (by simpa using hc) (by simpa using hd)]

theorem getD_zipWith4 (f : α → β → γ → δ → ε)
    (as : List α) (bs : List β) (cs : List γ) (ds : List δ)
    (hb : bs.length = as.length) (hc : cs.length = as.length) (hd : ds.length = as.length)
    (i : ℕ) (hi : i < as.length) (da : α) (db : β) (dc : γ) (dd : δ) (de : ε) :
    (zipWith4 f as bs cs ds).getD i de
      = f (as.getD i da) (bs.getD i db) (cs.getD i dc) (ds.getD i dd) := by
  induction as generalizing bs cs ds i with
  | nil => simp at hi
  | cons a as ih =>
    cases bs with
    | nil => simp at hb
    | cons b bs =>
      cases cs with
      | nil => simp at hc
      | cons c cs =>
        cases ds with
        | nil => simp at hd
        | cons d ds =>
          cases i with
          | zero => rfl
          | succ i =>
            simp only [zipWith4, List.getD_cons_succ]
            exact ih bs cs ds (by simpa using hb) (by simpa using hc) (by simpa using hd)
              i (by simpa using hi)

theorem combine_cell (nd : ℝ) (r g b : Grid Cell) (hr : rect r)
    (hsg : shape g = shape r) (hsb : shape b = shape r)
    (x y : ℕ) (hx : x < r.length) (hy : y < rowLen r) :
    get2 (combine_bands nd r g b) 0 x y =
      packRGBA (toU8 (normalizeCell (get2 r none x y)))
        (toU8 (normalizeCell (get2 g none x y)))
        (toU8 (normalizeCell (get2 b none x y)))
        (alphaVal nd (get2 r none x y)) := by
  have hrg : rect g := rect_of_shape_eq hsg hr
  have hrb : rect b := rect_of_shape_eq hsb hr
  have hlg : g.length = r.length := length_eq_of_shape_eq hsg
  have hlb : b.length = r.length := length_eq_of_shape_eq hsb
  have hwg : rowLen g = rowLen r := rowLen_eq_of_shape_eq hsg
  have hwb : rowLen b = rowLen r := rowLen_eq_of_shape_eq hsb
  have hs8r : shape (normalizer8 r) = shape r := shape_normalizer8 r
  have hs8g : shape (normalizer8 g) = shape r := (shape_normalizer8 g).trans hsg
  have hs8b : shape (normalizer8 b) = shape r := (shape_normalizer8 b).trans hsb
  have hsa : shape (r.map (List.map (alphaVal nd))) = shape r := shape_gridMap _ r
  have hl8r : (normalizer8 r).length = r.length := length_eq_of_shape_eq hs8r
  have hl8g : (normalizer8 g).length = (normalizer8 r).length := by
    rw [length_eq_of_shape_eq hs8g, hl8r]
  have hl8b : (normalizer8 b).length = (normalizer8 r).length := by
    rw [length_eq_of_shape_eq hs8b, hl8r]
  have hla : (r.map (List.map (alphaVal nd))).length = (normalizer8 r).length := by
    rw [length_eq_of_shape_eq hsa, hl8r]
  have hx8 : x < (normalizer8 r).length := by rw [hl8r]; exact hx
  have hrow8r : ((normalizer8 r).getD x []).length = rowLen r := by
    rw [row_length_eq_of_shape_eq hs8r, rect_rowlen hr hx]
  have hrow8g : ((normalizer8 g).getD x []).length = ((normalizer8 r).getD x []).length := by
    rw [row_length_eq_of_shape_eq hs8g, ← row_length_eq_of_shape_eq hs8r]
  have hrow8b : ((normalizer8 b).getD x []).length = ((normalizer8 r).getD x []).length := by
    rw [row_length_eq_of_shape_eq hs8b, ← row_length_eq_of_shape_eq hs8r]
  have hrowa : ((r.map (List.map (alphaVal nd))).getD x []).length
      = ((normalizer8 r).getD x []).length := by
    rw [row_length_eq_of_shape_eq hsa, ← row_length_eq_of_shape_eq hs8r]
  have hy8 : y < ((normalizer8 r).getD x []).length := by rw [hrow8r]; exact hy
  show get2 (zipWith4 (fun rr gr br ar => zipWith4 packRGBA rr gr br ar)
      (normalizer8 r) (normalizer8 g) (normalizer8 b) (r.map (List.map (alphaVal nd)))) 0 x y = _
  unfold get2
  rw [getD_zipWith4 _ (normalizer8 r) (normalizer8 g) (normalizer8 b)
    (r.map (List.map (alphaVal nd))) hl8g hl8b hla x hx8 [] [] [] [] []]
  rw [getD_zipWith4 packRGBA _ _ _ _ hrow8g hrow8b hrowa y hy8 0 0 0 0 0]
  have cr := normalizer8_cell r hr x y hx hy
  have cg := normalizer8_cell g hrg x y (by rw [hlg]; exact hx) (by rw [hwg]; exact hy)
  have cb := normalizer8_cell b hrb x y (by rw [hlb]; exact hx) (by rw [hwb]; exact hy)
  have ca : (((r.map (List.map (alphaVal nd))).getD x []).getD y 0)
      = alphaVal nd (get2 r none x y) := by
    rw [getD_map (List.map (alphaVal nd)) r x [] [] hx,
      getD_map (alphaVal nd) _ y none 0 (by rw [rect_rowlen hr hx]; exact hy)]
    rfl
  unfold get2 at cr cg cb
  rw [cr, cg, cb, ca]
  rfl

/-! ### Numeric facts about the sigmoid arithmetic -/

theorem normalizeVal_eq (v : ℝ) :
    normalizeVal v = (1 / (1 + Real.exp (40 * (0.125 - v / 65535)))) * 255 := by
  unfold normalizeVal
  norm_num

theorem exp5_lb : (148 : ℝ) < Real.exp 5 := by
  have h5 : Real.exp 5 = Real.exp 1 ^ (5 : ℕ) := by
    rw [← Real.exp_nat_mul]; norm_num
  have hb : (2.7182818283 : ℝ) ^ (5 : ℕ) ≤ Real.exp 1 ^ (5 : ℕ) :=
    pow_le_pow_left₀ (by norm_num) Real.exp_one_gt_d9.le 5
  have hc : (148 : ℝ) < (2.7182818283 : ℝ) ^ (5 : ℕ) := by norm_num
  rw [h5]
  linarith

theorem exp5_ub : Real.exp 5 < 149 := by
  have h5 : Real.exp 5 = Real.exp 1 ^ (5 : ℕ) := by
    rw [← Real.exp_nat_mul]; norm_num
  have hb : Real.exp 1 ^ (5 : ℕ) ≤ (2.7182818286 : ℝ) ^ (5 : ℕ) :=
    pow_le_pow_left₀ (Real.exp_pos 1).le Real.exp_one_lt_d9.le 5
  have hc : (2.7182818286 : ℝ) ^ (5 : ℕ) < 149 := by norm_num
  rw [h5]
  linarith

theorem exp35_lb : (254 : ℝ) < Real.exp 35 := by
  have h6 : Real.exp 6 = Real.exp 1 ^ (6 : ℕ) := by
    rw [← Real.exp_nat_mul]; norm_num
  have hb : (2.7182818283 : ℝ) ^ (6 : ℕ) ≤ Real.exp 1 ^ (6 : ℕ) :=
    pow_le_pow_left₀ (by norm_num) Real.exp_one_gt_d9.le 6
  have h1 : (254 : ℝ) < (2.7182818283 : ℝ) ^ (6 : ℕ) := by norm_num
  have h2 : Real.exp 6 ≤ Real.exp 35 := Real.exp_le_exp.mpr (by norm_num)
  rw [h6] at h2
  linarith

theorem normalizeVal_pos (v : ℝ) : 0 < normalizeVal v := by
  rw [normalizeVal_eq]
  positivity

theorem normalizeVal_lt (v : ℝ) : normalizeVal v < 255 := by
  rw [normalizeVal_eq, div_mul_eq_mul_div, one_mul]
  have he : (0 : ℝ) < Real.exp (40 * (0.125 - v / 65535)) := Real.exp_pos _
  rw [div_lt_iff₀ (by positivity)]
  linarith

theorem floor_normalizeVal_zero : ⌊normalizeVal 0⌋ = 1 := by
  rw [normalizeVal_eq]
  have h0 : (40 : ℝ) * (0.125 - 0 / 65535) = 5 := by norm_num
  rw [h0]
  have hl := exp5_lb
  have hu := exp5_ub
  have hpos : (0 : ℝ) < 1 + Real.exp 5 := by positivity
  rw [div_mul_eq_mul_div, one_mul, Int.floor_eq_iff]
  push_cast
  constructor
  · rw [le_div_iff₀ hpos]
    linarith
  · rw [div_lt_iff₀ hpos]
    linarith

theorem floor_normalizeVal_max : ⌊normalizeVal 65535⌋ = 254 := by
  rw [normalizeVal_eq]
  have h0 : (40 : ℝ) * (0.125 - 65535 / 65535) = -35 := by norm_num
  rw [h0]
  have hl := exp35_lb
  have hde : Real.exp (-35) ≤ 1 / 254 := by
    rw [Real.exp_neg, inv_le_comm₀ (Real.exp_pos 35) (by norm_num)]
    calc (1 / 254 : ℝ)⁻¹ = 254 := by norm_num
    _ ≤ Real.exp 35 := hl.le
  have hdp : (0 : ℝ) < Real.exp (-35) := Real.exp_pos _
  have hpos : (0 : ℝ) < 1 + Real.exp (-35) := by positivity
  rw [div_mul_eq_mul_div, one_mul, Int.floor_eq_iff]
  push_cast
  constructor
  · rw [le_div_iff₀ hpos]
    nlinarith
  · rw [div_lt_iff₀ hpos]
    nlinarith

theorem round_sig_zero : round ((255 : ℝ) / (1 + Real.exp (40 * 0.125))) = 2 := by
  have h0 : (40 : ℝ) * 0.125 = 5 := by norm_num
  rw [h0, round_eq]
  have hl := exp5_lb
  have hu := exp5_ub
  have hpos : (0 : ℝ) < 1 + Real.exp 5 := by positivity
  have h1 : (3 / 2 : ℝ) ≤ 255 / (1 + Real.exp 5) := by
    rw [le_div_iff₀ hpos]
    linarith
  have h2 : (255 : ℝ) / (1 + Real.exp 5) < 5 / 2 := by
    rw [div_lt_iff₀ hpos]
    linarith
  rw [Int.floor_eq_iff]
  push_cast
  constructor
  · linarith
  · linarith

theorem normalizeVal_mono {v₁ v₂ : ℝ} (h : v₁ ≤ v₂) : normalizeVal v₁ ≤ normalizeVal v₂ := by
  rw [normalizeVal_eq, normalizeVal_eq, div_mul_eq_mul_div, one_mul, div_mul_eq_mul_div, one_mul]
  have he : Real.exp (40 * (0.125 - v₂ / 65535)) ≤ Real.exp (40 * (0.125 - v₁ / 65535)) := by
    apply Real.exp_le_exp.mpr
    have hd : v₁ / 65535 ≤ v₂ / 65535 := by gcongr
    linarith
  rw [div_le_div_iff₀ (by positivity) (by positivity)]
  linarith

theorem toU8_normalizeCell (v : ℝ) :
    toU8 (normalizeCell (some v)) = Int.toNat ⌊normalizeVal v⌋ := by
  show (Int.toNat ⌊normalizeVal v⌋) % 256 = Int.toNat ⌊normalizeVal v⌋
  have h : ⌊normalizeVal v⌋ < 255 := by
    rw [Int.floor_lt]
    exact_mod_cast normalizeVal_lt v
  omega

theorem toU8_norm_le (v : ℝ) : toU8 (normalizeCell (some v)) ≤ 254 := by
  rw [toU8_normalizeCell]
  have h : ⌊normalizeVal v⌋ < 255 := by
    rw [Int.floor_lt]
    exact_mod_cast normalizeVal_lt v
  omega

theorem toU8_lt (c : Cell) : toU8 c < 256 := by
  cases c with
  | none => norm_num [toU8]
  | some v => exact Nat.mod_lt _ (by norm_num)

theorem alphaVal_cases (nd : ℝ) (c : Cell) : alphaVal nd c = 0 ∨ alphaVal nd c = 255 := by
  cases c with
  | none => exact Or.inl rfl
  | some v => by_cases h : v ≤ nd <;> simp [alphaVal, h]

theorem pack_mod (r g b a : ℕ) (hr : r < 256) : packRGBA r g b a % 256 = r := by
  have h2 : (256 : ℕ) ^ 2 = 65536 := by norm_num
  have h3 : (256 : ℕ) ^ 3 = 16777216 := by norm_num
  unfold packRGBA
  rw [h2, h3]
  omega

theorem pack_div (r g b a : ℕ) (hr : r < 256) (hg : g < 256) (hb : b < 256) :
    packRGBA r g b a / 256 ^ 3 = a := by
  have h2 : (256 : ℕ) ^ 2 = 65536 := by norm_num
  have h3 : (256 : ℕ) ^ 3 = 16777216 := by norm_num
  unfold packRGBA
  rw [h2, h3]
  omega

/-! ### Shape and alpha byte of the compositor -/

theorem ext_getD {l₁ l₂ : List α} (d : α) (hl : l₁.length = l₂.length)
    (h : ∀ i, i < l₁.length → l₁.getD i d = l₂.getD i d) : l₁ = l₂ := by
  induction l₁ generalizing l₂ with
  | nil =>
    cases l₂ with
    | nil => rfl
    | cons b u => simp at hl
  | cons a t ih =>
    cases l₂ with
    | nil => simp at hl
    | cons b u =>
      have h0 : a = b := by simpa using h 0 (by simp)
      have ht : t = u := by
        refine ih (by simpa using hl) fun i hi => ?_
        simpa using h (i + 1) (by simpa using hi)
      rw [h0, ht]

theorem shape_combine (nd : ℝ) (r g b : Grid Cell)
    (hsg : shape g = shape r) (hsb : shape b = shape r) :
    shape (combine_bands nd r g b) = shape r := by
  have hs8r : shape (normalizer8 r) = shape r := shape_normalizer8 r
  have hs8g : shape (normalizer8 g) = shape r := (shape_normalizer8 g).trans hsg
  have hs8b : shape (normalizer8 b) = shape r := (shape_normalizer8 b).trans hsb
  have hsa : shape (r.map (List.map (alphaVal nd))) = shape r := shape_gridMap _ r
  have hl8r : (normalizer8 r).length = r.length := length_eq_of_shape_eq hs8r
  have hl8g : (normalizer8 g).length = (normalizer8 r).length := by
    rw [length_eq_of_shape_eq hs8g, hl8r]
  have hl8b : (normalizer8 b).length = (normalizer8 r).length := by
    rw [length_eq_of_shape_eq hs8b, hl8r]
  have hla : (r.map (List.map (alphaVal nd))).length = (normalizer8 r).length := by
    rw [length_eq_of_shape_eq hsa, hl8r]
  have hcl : (combine_bands nd r g b).length = r.length := by
    show (zipWith4 _ (normalizer8 r) (normalizer8 g) (normalizer8 b)
      (r.map (List.map (alphaVal nd)))).length = r.length
    rw [length_zipWith4 _ _ _ _ _ hl8g hl8b hla, hl8r]
  refine ext_getD 0 (by rw [length_shape, length_shape, hcl]) fun i hi => ?_
  have hir : i < r.length := by
    rw [length_shape, hcl] at hi
    exact hi
  have hi8 : i < (normalizer8 r).length := by rw [hl8r]; exact hir
  rw [shape_getD, shape_getD]
  show (List.getD (zipWith4 _ (normalizer8 r) (normalizer8 g) (normalizer8 b)
    (r.map (List.map (alphaVal nd)))) i []).length = _
  rw [getD_zipWith4 _ _ _ _ _ hl8g hl8b hla i hi8 [] [] [] [] []]
  rw [length_zipWith4]
  · rw [row_length_eq_of_shape_eq hs8r]
  · rw [row_length_eq_of_shape_eq hs8g, ← row_length_eq_of_shape_eq hs8r]
  · rw [row_length_eq_of_shape_eq hs8b, ← row_length_eq_of_shape_eq hs8r]
  · rw [row_length_eq_of_shape_eq hsa, ← row_length_eq_of_shape_eq hs8r]

theorem alpha_byte (nd : ℝ) (r g b : Grid Cell) (hr : rect r)
    (hsg : shape g = shape r) (hsb : shape b = shape r)
    (x y : ℕ) (hx : x < r.length) (hy : y < rowLen r) :
    get2 (combine_bands nd r g b) 0 x y / 256 ^ 3 = alphaVal nd (get2 r none x y) := by
  rw [combine_cell nd r g b hr hsg hsb x y hx hy]
  rcases alphaVal_cases nd (get2 r none x y) with h | h <;>
    rw [pack_div _ _ _ _ (toU8_lt _) (toU8_lt _) (toU8_lt _)]

theorem rect_singleton (c : Cell) : rect [[c]] := by
  intro n hn
  simpa [shape, rowLen] using hn

/-! ### Claim theorems -/

/-- C1: on a 2-D array of samples in [0, 65535], the Normalizer rescales each
cell v to v/65535, applies the logistic curve 1/(1+exp(40*(0.125 - v/65535))),
scales by 255 and truncates to an 8-bit integer, producing a same-shaped array
of values in [0, 255]. -/
theorem C1_normalizer_contract (g : Grid Cell) (hrect : rect g)
    (hvals : ∀ row ∈ g, ∀ c ∈ row, ∃ v : ℝ, c = some v ∧ 0 ≤ v ∧ v ≤ 65535) :
    shape (normalizer8 g) = shape g ∧
    ∀ x y, x < g.length → y < rowLen g →
      ∃ v : ℝ, get2 g none x y = some v ∧
        get2 (normalizer8 g) 0 x y
          = Int.toNat ⌊(1 / (1 + Real.exp (40 * (0.125 - v / 65535)))) * 255⌋ ∧
        get2 (normalizer8 g) 0 x y ≤ 255 := by
  refine ⟨shape_normalizer8 g, fun x y hx hy => ?_⟩
  have hrow : y < (g.getD x []).length := by rw [rect_rowlen hrect hx]; exact hy
  obtain ⟨v, hv, h0, h65⟩ :=
    hvals (g.getD x []) (getD_mem [] hx) ((g.getD x []).getD y none) (getD_mem none hrow)
  have hv' : get2 g none x y = some v := hv
  refine ⟨v, hv', ?_, ?_⟩
  · rw [normalizer8_cell g hrect x y hx hy, hv', toU8_normalizeCell, ← normalizeVal_eq]
  · rw [normalizer8_cell g hrect x y hx hy, hv']
    exact le_trans (toU8_norm_le v) (by norm_num)

/-- C1 witness at the 1-by-1 grid holding the sample 0. -/
theorem C1_witness :
    ∃ v : ℝ, get2 [[some (0 : ℝ)]] none 0 0 = some v ∧
      get2 (normalizer8 [[some (0 : ℝ)]]) 0 0 0
        = Int.toNat ⌊(1 / (1 + Real.exp (40 * (0.125 - v / 65535)))) * 255⌋ ∧
      get2 (normalizer8 [[some (0 : ℝ)]]) 0 0 0 ≤ 255 :=
  (C1_normalizer_contract [[some 0]] (rect_singleton _)
    (by
      intro row hrow c hc
      rw [List.mem_singleton] at hrow
      subst hrow
      rw [List.mem_singleton] at hc
      subst hc
      exact ⟨0, rfl, le_refl 0, by norm_num⟩)).2 0 0 (by norm_num)
    (by norm_num [rowLen, shape])

/-- C2: the alpha byte of each composite pixel is 0 when the raw red cell is
NaN or at most the sentinel, 255 when it exceeds the sentinel, hence binary;
with sentinel 1, a red value 1 gives alpha 0 and a red value 2 gives 255. -/
theorem C2_alpha_mask (nd : ℝ) (r g b : Grid Cell) (hr : rect r)
    (hsg : shape g = shape r) (hsb : shape b = shape r)
    (x y : ℕ) (hx : x < r.length) (hy : y < rowLen r) :
    (get2 (combine_bands nd r g b) 0 x y / 256 ^ 3 = 0 ∨
      get2 (combine_bands nd r g b) 0 x y / 256 ^ 3 = 255) ∧
    (get2 r none x y = none → get2 (combine_bands nd r g b) 0 x y / 256 ^ 3 = 0) ∧
    (∀ v : ℝ, get2 r none x y = some v → v ≤ nd →
      get2 (combine_bands nd r g b) 0 x y / 256 ^ 3 = 0) ∧
    (∀ v : ℝ, get2 r none x y = some v → nd < v →
      get2 (combine_bands nd r g b) 0 x y / 256 ^ 3 = 255) ∧
    get2 (combine_bands 1 [[some 1]] [[some 1]] [[some 1]]) 0 0 0 / 256 ^ 3 = 0 ∧
    get2 (combine_bands 1 [[some 2]] [[some 2]] [[some 2]]) 0 0 0 / 256 ^ 3 = 255 := by
  have hab := alpha_byte nd r g b hr hsg hsb x y hx hy
  refine ⟨?_, ?_, ?_, ?_, ?_, ?_⟩
  · rw [hab]
    exact alphaVal_cases nd _
  · intro hn
    rw [hab, hn]
    rfl
  · intro v hv hle
    rw [hab, hv]
    simp [alphaVal, hle]
  · intro v hv hlt
    rw [hab, hv]
    simp [alphaVal, not_le.mpr hlt]
  · rw [alpha_byte 1 [[some 1]] [[some 1]] [[some 1]] (rect_singleton _) rfl rfl 0 0
      (by norm_num) (by norm_num [rowLen, shape])]
    norm_num [get2, alphaVal]
  · rw [alpha_byte 1 [[some 2]] [[some 2]] [[some 2]] (rect_singleton _) rfl rfl 0 0
      (by norm_num) (by norm_num [rowLen, shape])]
    norm_num [get2, alphaVal]

/-- C2 witness at sentinel 1 and the red cell holding 1. -/
theorem C2_witness :
    get2 (combine_bands 1 [[some 1]] [[some 1]] [[some 1]]) 0 0 0 / 256 ^ 3 = 0 :=
  (C2_alpha_mask 1 [[some 1]] [[some 1]] [[some 1]] (rect_singleton _) rfl rfl 0 0
    (by norm_num) (by norm_num [rowLen, shape])).2.2.2.2.1

/-- C3 counterexample: at an all-zero input the code's output cell is 1 (it
truncates the float 255/(1+exp(5)) of about 1.707), not
round(255/(1+exp(40*0.125))) = 2 as the claim states. -/
theorem C3_counterexample :
    (((get2 (normalizer8 [[some 0]]) 0 0 0 : ℕ) : ℤ) ≠
      round ((255 : ℝ) / (1 + Real.exp (40 * 0.125)))) := by
  have h1 : get2 (normalizer8 [[some 0]]) 0 0 0 = 1 := by
    rw [normalizer8_cell [[some 0]] (rect_singleton _) 0 0 (by norm_num)
      (by norm_num [rowLen, shape])]
    have hc : get2 [[some (0 : ℝ)]] none 0 0 = some 0 := rfl
    rw [hc, toU8_normalizeCell, floor_normalizeVal_zero]
    rfl
  rw [h1, round_sig_zero]
  norm_num

/-- C3 amended: for an all-zero input every output cell of the Normalizer
equals the truncation of 255/(1+exp(40*0.125)) (namely 1), and for an
all-65535 input every output cell equals the truncation of
255/(1+exp(40*(0.125-1))) (namely 254); the code truncates, it does not
round. -/
theorem C3_constant_inputs (g : Grid Cell) (hrect : rect g) :
    ((∀ row ∈ g, ∀ c ∈ row, c = some 0) →
      ∀ x y, x < g.length → y < rowLen g →
        get2 (normalizer8 g) 0 x y
          = Int.toNat ⌊(255 : ℝ) / (1 + Real.exp (40 * 0.125))⌋) ∧
    ((∀ row ∈ g, ∀ c ∈ row, c = some 65535) →
      ∀ x y, x < g.length → y < rowLen g →
        get2 (normalizer8 g) 0 x y
          = Int.toNat ⌊(255 : ℝ) / (1 + Real.exp (40 * (0.125 - 1)))⌋) := by
  have e0 : (255 : ℝ) / (1 + Real.exp (40 * 0.125)) = normalizeVal 0 := by
    rw [normalizeVal_eq, div_mul_eq_mul_div, one_mul]
    norm_num
  have e1 : (255 : ℝ) / (1 + Real.exp (40 * (0.125 - 1))) = normalizeVal 65535 := by
    rw [normalizeVal_eq, div_mul_eq_mul_div, one_mul]
    norm_num
  constructor
  · intro hzero x y hx hy
    have hrow : y < (g.getD x []).length := by rw [rect_rowlen hrect hx]; exact hy
    have hv : get2 g none x y = some 0 :=
      hzero (g.getD x []) (getD_mem [] hx) ((g.getD x []).getD y none) (getD_mem none hrow)
    rw [normalizer8_cell g hrect x y hx hy, hv, toU8_normalizeCell, e0]
  · intro hmax x y hx hy
    have hrow : y < (g.getD x []).length := by rw [rect_rowlen hrect hx]; exact hy
    have hv : get2 g none x y = some 65535 :=
      hmax (g.getD x []) (getD_mem [] hx) ((g.getD x []).getD y none) (getD_mem none hrow)
    rw [normalizer8_cell g hrect x y hx hy, hv, toU8_normalizeCell, e1]

/-- C3 witness at the 1-by-1 all-zero grid. -/
theorem C3_witness :
    get2 (normalizer8 [[some 0]]) 0 0 0
      = Int.toNat ⌊(255 : ℝ) / (1 + Real.exp (40 * 0.125))⌋ :=
  (C3_constant_inputs [[some 0]] (rect_singleton _)).1
    (by
      intro row hrow c hc
      rw [List.mem_singleton] at hrow
      subst hrow
      rw [List.mem_singleton] at hc
      exact hc) 0 0 (by norm_num) (by norm_num [rowLen, shape])

/-- C4: the Normalizer is monotonically non-decreasing in the input value,
both as the float sigmoid value and after the 8-bit truncation. -/
theorem C4_monotone (v₁ v₂ : ℝ) (h : v₁ ≤ v₂) :
    normalizeVal v₁ ≤ normalizeVal v₂ ∧
    toU8 (normalizeCell (some v₁)) ≤ toU8 (normalizeCell (some v₂)) := by
  refine ⟨normalizeVal_mono h, ?_⟩
  rw [toU8_normalizeCell, toU8_normalizeCell]
  have hf : ⌊normalizeVal v₁⌋ ≤ ⌊normalizeVal v₂⌋ := Int.floor_le_floor (normalizeVal_mono h)
  omega

/-- C4 witness at the pair 0 and 1. -/
theorem C4_witness :
    normalizeVal 0 ≤ normalizeVal 1 ∧
    toU8 (normalizeCell (some 0)) ≤ toU8 (normalizeCell (some 1)) :=
  C4_monotone 0 1 (by norm_num)

/-- C5: for same-shaped band triples the composite image has the shape of the
inputs. -/
theorem C5_shape_preserved (nd : ℝ) (r g b : Grid Cell)
    (hsg : shape g = shape r) (hsb : shape b = shape r) :
    shape (combine_bands nd r g b) = shape r :=
  shape_combine nd r g b hsg hsb

/-- C5 witness at three 1-by-1 grids. -/
theorem C5_witness :
    shape (combine_bands 1 [[some 1]] [[some 2]] [[some 3]]) = shape [[some 1]] :=
  C5_shape_preserved 1 [[some 1]] [[some 2]] [[some 3]] rfl rfl

/-- C6: a NaN input cell passes through the normalization arithmetic and
surfaces as a NaN output cell of normalize_data. -/
theorem C6_nan_propagation (g : Grid Cell) (hrect : rect g) (x y : ℕ)
    (hx : x < g.length) (hy : y < rowLen g) (hnan : get2 g none x y = none) :
    get2 (normalize_data g) none x y = none := by
  rw [normalize_data_cell g hrect x y hx hy, hnan]
  rfl

/-- C6 witness at the 1-by-1 grid holding NaN. -/
theorem C6_witness : get2 (normalize_data [[none]]) none 0 0 = none :=
  C6_nan_propagation [[none]] (rect_singleton _) 0 0 (by norm_num)
    (by norm_num [rowLen, shape]) rfl

/-- C7: the Normalizer is deterministic: every cell of the loop's result is
the same function of the input cell whatever the initial contents of the
scratch output buffer, so two runs on the same array agree everywhere. -/
theorem C7_deterministic (g o₁ o₂ : Grid Cell) (hrect : rect g)
    (h₁ : shape o₁ = shape g) (h₂ : shape o₂ = shape g)
    (x y : ℕ) (hx : x < g.length) (hy : y < rowLen g) :
    get2 (normalize_data_run g o₁).out none x y = normalizeCell (get2 g none x y) ∧
    get2 (normalize_data_run g o₂).out none x y
      = get2 (normalize_data_run g o₁).out none x y := by
  have a1 := run_cell g o₁ hrect h₁ x y hx hy
  have a2 := run_cell g o₂ hrect h₂ x y hx hy
  exact ⟨a1, a2.trans a1.symm⟩

/-- C7 witness: two runs over the grid holding 3, from different buffers. -/
theorem C7_witness :
    get2 (normalize_data_run [[some 3]] [[some 1]]).out none 0 0
      = normalizeCell (get2 [[some 3]] none 0 0) ∧
    get2 (normalize_data_run [[some 3]] [[some 2]]).out none 0 0
      = get2 (normalize_data_run [[some 3]] [[some 1]]).out none 0 0 :=
  C7_deterministic [[some 3]] [[some 1]] [[some 2]] (rect_singleton _) rfl rfl 0 0
    (by norm_num) (by norm_num [rowLen, shape])

/-- C8: the loop of normalize_data only writes the output buffer: the input
array component of the final state equals the input array, whatever the
initial output buffer. -/
theorem C8_input_unchanged (agg out : Grid Cell) :
    (normalize_data_run agg out).agg = agg :=
  foldl_ndStep_agg (indices agg) ⟨agg, out⟩

/-- C9: each composite pixel packs the four 8-bit planes little-endian:
pixel = r + 256*g + 256^2*b + 256^3*a, with the red byte extractable as the
least significant byte and alpha as the most significant byte. -/
theorem C9_packing (nd : ℝ) (r g b : Grid Cell) (hr : rect r)
    (hsg : shape g = shape r) (hsb : shape b = shape r)
    (x y : ℕ) (hx : x < r.length) (hy : y < rowLen r) :
    get2 (combine_bands nd r g b) 0 x y
      = toU8 (normalizeCell (get2 r none x y))
        + 256 * toU8 (normalizeCell (get2 g none x y))
        + 256 ^ 2 * toU8 (normalizeCell (get2 b none x y))
        + 256 ^ 3 * alphaVal nd (get2 r none x y) ∧
    get2 (combine_bands nd r g b) 0 x y % 256 = toU8 (normalizeCell (get2 r none x y)) ∧
    get2 (combine_bands nd r g b) 0 x y / 256 ^ 3 = alphaVal nd (get2 r none x y) := by
  have hc := combine_cell nd r g b hr hsg hsb x y hx hy
  refine ⟨hc, ?_, ?_⟩
  · rw [hc]
    exact pack_mod _ _ _ _ (toU8_lt _)
  · rw [hc]
    exact pack_div _ _ _ _ (toU8_lt _) (toU8_lt _) (toU8_lt _)

/-- C9 witness at three 1-by-1 grids and sentinel 1. -/
theorem C9_witness :
    get2 (combine_bands 1 [[some 1]] [[some 2]] [[some 3]]) 0 0 0
      = toU8 (normalizeCell (get2 [[some 1]] none 0 0))
        + 256 * toU8 (normalizeCell (get2 [[some 2]] none 0 0))
        + 256 ^ 2 * toU8 (normalizeCell (get2 [[some 3]] none 0 0))
        + 256 ^ 3 * alphaVal 1 (get2 [[some 1]] none 0 0) ∧
    get2 (combine_bands 1 [[some 1]] [[some 2]] [[some 3]]) 0 0 0 % 256
      = toU8 (normalizeCell (get2 [[some 1]] none 0 0)) ∧
    get2 (combine_bands 1 [[some 1]] [[some 2]] [[some 3]]) 0 0 0 / 256 ^ 3
      = alphaVal 1 (get2 [[some 1]] none 0 0) :=
  C9_packing 1 [[some 1]] [[some 2]] [[some 3]] (rect_singleton _) rfl rfl 0 0
    (by norm_num) (by norm_num [rowLen, shape])

/-- C10: the alpha byte of the composite depends only on the red band: with
the same red array and any green and blue arrays of its shape, the alpha
bytes agree and equal the mask of the raw red cell, computed before any
normalization. -/
theorem C10_alpha_red_only (nd : ℝ) (r g₁ b₁ g₂ b₂ : Grid Cell) (hr : rect r)
    (hsg₁ : shape g₁ = shape r) (hsb₁ : shape b₁ = shape r)
    (hsg₂ : shape g₂ = shape r) (hsb₂ : shape b₂ = shape r)
    (x y : ℕ) (hx : x < r.length) (hy : y < rowLen r) :
    get2 (combine_bands nd r g₁ b₁) 0 x y / 256 ^ 3
      = get2 (combine_bands nd r g₂ b₂) 0 x y / 256 ^ 3 ∧
    get2 (combine_bands nd r g₁ b₁) 0 x y / 256 ^ 3 = alphaVal nd (get2 r none x y) := by
  have h1 := alpha_byte nd r g₁ b₁ hr hsg₁ hsb₁ x y hx hy
  have h2 := alpha_byte nd r g₂ b₂ hr hsg₂ hsb₂ x y hx hy
  exact ⟨h1.trans h2.symm, h1⟩

/-- C10 witness: same red band, two different green and blue pairs. -/
theorem C10_witness :
    get2 (combine_bands 1 [[some 2]] [[some 3]] [[some 4]]) 0 0 0 / 256 ^ 3
      = get2 (combine_bands 1 [[some 2]] [[some 5]] [[some 6]]) 0 0 0 / 256 ^ 3 ∧
    get2 (combine_bands 1 [[some 2]] [[some 3]] [[some 4]]) 0 0 0 / 256 ^ 3
      = alphaVal 1 (get2 [[some 2]] none 0 0) :=
  C10_alpha_red_only 1 [[some 2]] [[some 3]] [[some 4]] [[some 5]] [[some 6]]
    (rect_singleton _) rfl rfl rfl rfl 0 0 (by norm_num) (by norm_num [rowLen, shape])
